import Mathlib

/-!
Verification development for the klapaucius trading engine.

Each definition below is a shallow embedding of a function of the Rust
source; the file is organised per subsystem:
 * enums shared by the whole code base (`Side`, `OrderStatus`, …);
 * `Granularity` and its period-length functions;
 * persisted benchmark settings (`BenchmarkSettings`);
 * the balance-update handler of the live trader;
 * the live signal→order state machine (`processLastSignal`);
 * the CleanUp drain loop over the temp-executions buffer;
 * the benchmark simulator (`computeBenchmarkPositions`) with its
   tail rewind, and the indicator/signal pipeline update-vs-fit model.

Machine floating point (`f64`) is modelled by exact rationals `ℚ`;
timestamps are `Int` milliseconds.
-/

namespace Klapaucius

/-- Order side, from `common::enums::side::Side` (variants `Buy`, `Sell`, `Nil`). -/
inductive Side where
  | Buy
  | Sell
  | Nil
deriving DecidableEq, Repr

/-- Conversion of a side into a position integer, as in `impl From<Side> for i32`
(`Buy → 1`, `Sell → -1`, `Nil → 0`), used for the `position` column. -/
def Side.toPosition : Side → Int
  | .Buy => 1
  | .Sell => -1
  | .Nil => 0

/-- Opposite side used when a close order is created for an open order. -/
def Side.opposite : Side → Side
  | .Buy => .Sell
  | .Sell => .Buy
  | .Nil => .Nil

/-- Order status, from `common::enums::order_status::OrderStatus`. -/
inductive OrderStatus where
  | New
  | PartiallyFilled
  | Filled
  | PartiallyClosed
  | Closed
  | Cancelled
  | StoppedBR
  | StoppedSL
  | StoppedTP
  | StoppedTSL
deriving DecidableEq, Repr

/-- Signal categories, from `signal_category::SignalCategory` (the variants
used by `compute_benchmark_positions` and the live state machine). -/
inductive SignalCategory where
  | KeepPosition
  | GoLong
  | GoShort
  | RevertPosition
  | CloseLong
  | CloseShort
  | ClosePosition
  | LeverageBankrupcty
  | StopLoss
  | TakeProfit
  | TrailingStopLoss
deriving DecidableEq, Repr

/-- Trade status, from `common::enums::trade_status::TradeStatus`; it is the
derived status the live state machine matches on. -/
inductive TradeStatus where
  | New
  | PartiallyOpen
  | Open
  | PendingCloseOrder
  | PartiallyClosed
  | Closed
  | Cancelled
deriving DecidableEq, Repr

/-! ## Granularity (`shared/common/src/enums/granularity.rs`) -/

/-- The `Granularity` enumeration (variants `m1 … M1`). -/
inductive Granularity where
  | m1
  | m3
  | m5
  | m10
  | m15
  | m30
  | h1
  | h2
  | h4
  | h6
  | h12
  | d1
  | w1
  | M1
deriving DecidableEq, Repr

/-- `Granularity::get_granularity_in_secs`, transcribed arm by arm
(including `h2 => 2 * 60 * 20`). -/
def Granularity.get_granularity_in_secs : Granularity → Nat
  | .m1 => 60
  | .m3 => 3 * 60
  | .m5 => 5 * 60
  | .m10 => 10 * 60
  | .m15 => 15 * 60
  | .m30 => 30 * 60
  | .h1 => 60 * 60
  | .h2 => 2 * 60 * 20
  | .h4 => 4 * 60 * 60
  | .h6 => 6 * 60 * 60
  | .h12 => 12 * 60 * 60
  | .d1 => 1 * 24 * 60 * 60
  | .w1 => 7 * 24 * 60 * 60
  | .M1 => 30 * 24 * 60 * 60

/-- `Granularity::get_granularity_in_mins`: seconds divided by 60
(integer division, as in Rust `u32`). -/
def Granularity.get_granularity_in_mins (g : Granularity) : Nat :=
  g.get_granularity_in_secs / 60

/-- The period length in seconds that each variant's *name* denotes
(`m1` = one minute, `h2` = two hours, `M1` = thirty days), the reading the
specification assigns to the enumeration. -/
def Granularity.namedSeconds : Granularity → Nat
  | .m1 => 60
  | .m3 => 3 * 60
  | .m5 => 5 * 60
  | .m10 => 10 * 60
  | .m15 => 15 * 60
  | .m30 => 30 * 60
  | .h1 => 3600
  | .h2 => 2 * 3600
  | .h4 => 4 * 3600
  | .h6 => 6 * 3600
  | .h12 => 12 * 3600
  | .d1 => 86400
  | .w1 => 7 * 86400
  | .M1 => 30 * 86400

/-! ## Persisted benchmark settings (`shared/core/src/config.rs`) -/

/-- `BenchmarkSettings`: `datetimes` is the `(start?, end?)` pair; the three id
fields are opaque here (modelled as `Nat`). Times are millisecond timestamps. -/
structure BenchmarkSettings where
  datetimes : Option Int × Option Int
  strategy_id : Nat
  data_provider_id : Nat
  trader_exchange_id : Nat
deriving DecidableEq, Repr

/-- `BenchmarkSettings::default`, parameterised by the current time `now`
(the source calls `current_datetime()`): `datetimes = (None, Some(now))` and
default ids. -/
def BenchmarkSettings.defaultSettings (now : Int) : BenchmarkSettings :=
  { datetimes := (none, some now)
    strategy_id := 0
    data_provider_id := 0
    trader_exchange_id := 0 }

/-- The state of the persisted settings file: `none` when the file is absent
or cannot be opened, `some none` when it exists but fails to parse,
`some (some cfg)` when it parses. -/
def ConfigFile := Option (Option BenchmarkSettings)

/-- `BenchmarkSettings::load_or_default`: an unopenable file returns the
default; a parse failure (`from_reader(..).unwrap_or_default()`) also returns
the default; otherwise the parsed settings. -/
def BenchmarkSettings.load_or_default (file : ConfigFile) (now : Int) :
    BenchmarkSettings :=
  match file with
  | none => BenchmarkSettings.defaultSettings now
  | some none => BenchmarkSettings.defaultSettings now
  | some (some cfg) => cfg

/-- One day in milliseconds (`DAY_IN_MS`). -/
def DAY_IN_MS : Int := 86400000

/-! ## Balance updates (`get_update_balance_handle`, `trader.rs`) -/

/-- `Balance` (`{wallet_balance, available_to_withdraw, timestamp}` per the
data model; the handler only forwards whole values). -/
structure Balance where
  timestamp : Int
  wallet_balance : ℚ
  available_to_withdraw : ℚ
deriving DecidableEq, Repr

/-- One iteration of `get_update_balance_handle`'s subscription loop: a
`Some(balance)` update replaces the current balance unconditionally, a `None`
update leaves it unchanged.  There is no timestamp comparison anywhere. -/
def applyBalanceUpdate (current : Balance) (update : Option Balance) : Balance :=
  match update with
  | some balance => balance
  | none => current

/-- The whole subscription loop of `get_update_balance_handle` over a finite
inbound stream of updates. -/
def applyBalanceUpdates (initial : Balance) (updates : List (Option Balance)) :
    Balance :=
  updates.foldl applyBalanceUpdate initial

/-- The sequence of balances actually applied to the current-balance state by
the loop (every `Some` payload, in arrival order). -/
def appliedBalances (updates : List (Option Balance)) : List Balance :=
  updates.filterMap id

/-! ## Theorems on granularity, settings and balance handling -/

/-- C7: `get_granularity_in_secs` returns the period length named by each
variant for every variant except `h2`, where it returns `2*60*20 = 2400`
instead of the named 7200 seconds; `get_granularity_in_mins` is always the
seconds value divided by 60 (so `h2` yields 40 minutes, not 120). -/
theorem granularity_secs_divergence :
    (∀ g : Granularity,
        g.get_granularity_in_secs =
          if g = Granularity.h2 then 2400 else g.namedSeconds) ∧
    Granularity.h2.namedSeconds = 7200 ∧
    (∀ g : Granularity,
        g.get_granularity_in_mins = g.get_granularity_in_secs / 60) ∧
    Granularity.h2.get_granularity_in_mins = 40 := by
  refine ⟨?_, rfl, ?_, rfl⟩ <;> exact fun g => by cases g <;> rfl

/-- C8: the claim fails on the code: when the settings file is absent,
`load_or_default` returns the default settings, whose *start* datetime is
`None` — not `end − 1 day`.  Evaluated at `now = 0`. -/
theorem load_or_default_start_is_none :
    (BenchmarkSettings.load_or_default none 0).datetimes.fst = none ∧
    (BenchmarkSettings.load_or_default none 0).datetimes.fst ≠
      some (0 - DAY_IN_MS) := by
  exact ⟨rfl, by decide⟩

/-- C8 (amended): if the persisted benchmark-settings file is absent or
malformed, loading returns the default configuration, in which the end
datetime is the current time and the start datetime is absent (`None`). -/
theorem load_or_default_returns_default (file : ConfigFile) (now : Int)
    (h : file = none ∨ file = some none) :
    BenchmarkSettings.load_or_default file now =
        BenchmarkSettings.defaultSettings now ∧
    (BenchmarkSettings.defaultSettings now).datetimes = (none, some now) := by
  rcases h with h | h <;> subst h <;> exact ⟨rfl, rfl⟩

/-- C8 (amended) witness: the absent-file case at `now = 5`. -/
theorem load_or_default_returns_default_witness :
    BenchmarkSettings.load_or_default none 5 =
        BenchmarkSettings.defaultSettings 5 ∧
    (BenchmarkSettings.defaultSettings 5).datetimes = (none, some 5) :=
  load_or_default_returns_default none 5 (Or.inl rfl)

/-- C9: the claim fails on the code: after an update stamped 100 is applied,
an update stamped 50 — strictly older — is applied as well, ending as the
current balance. -/
theorem balance_update_applies_older_timestamp :
    appliedBalances [some ⟨100, 5, 5⟩, some ⟨50, 7, 7⟩] =
        [⟨100, 5, 5⟩, ⟨50, 7, 7⟩] ∧
    applyBalanceUpdates ⟨0, 0, 0⟩ [some ⟨100, 5, 5⟩, some ⟨50, 7, 7⟩] =
        ⟨50, 7, 7⟩ ∧
    (50 : Int) < 100 := by
  exact ⟨rfl, rfl, by decide⟩

/-- C9 (amended): the handler applies every inbound `Some` balance update
unconditionally, in arrival order and with no timestamp comparison: the
resulting current balance is the last `Some` payload of the stream (or the
initial balance when there is none). -/
theorem balance_updates_applied_unconditionally
    (updates : List (Option Balance)) (initial : Balance) :
    applyBalanceUpdates initial updates =
      (appliedBalances updates).getLastD initial := by
  induction updates generalizing initial with
  | nil => rfl
  | cons u tl ih =>
    cases u with
    | none => exact ih initial
    | some b =>
      have h1 : applyBalanceUpdates initial (some b :: tl) =
          applyBalanceUpdates b tl := rfl
      have h2 : appliedBalances (some b :: tl) = b :: appliedBalances tl := rfl
      rw [h1, h2, List.getLastD_cons]
      exact ih b

/-! ## Live signal→order state machine (`process_last_signal`, `trader.rs`) -/

/-- The Trader-capability operations the state machine can invoke. -/
inductive TraderOp where
  | cancelOp
  | amendOp
  | openOp (side : Side)
  | tryCloseOp
deriving DecidableEq, Repr

/-- `process_last_signal`, reduced to the sequence of Trader operations it
invokes (success path).  The machine reads the current trade as
`current_trade.status()` and `current_trade.open_order.side`, here a
`Option (TradeStatus × Side)`; with no current trade only `go_long`/`go_short`
open.  For `TradeStatus::New` a matching close signal cancels; an opposite
`go_*` cancels then reopens on the signalled side.  `PartiallyOpen` and
`PendingCloseOrder` share one arm: `PartiallyOpen` first amends the open
order, then both call `try_close_position`; every other status does
nothing. -/
def processLastSignal (trade : Option (TradeStatus × Side))
    (signal : SignalCategory) : List TraderOp :=
  match trade with
  | some (status, side) =>
    match status with
    | TradeStatus.New =>
      if (signal = SignalCategory.CloseLong ∧ side = Side.Buy) ∨
          (signal = SignalCategory.CloseShort ∧ side = Side.Sell) ∨
          (signal = SignalCategory.ClosePosition ∧ side ≠ Side.Nil) then
        [TraderOp.cancelOp]
      else if (signal = SignalCategory.GoLong ∧ side = Side.Sell) ∨
          (signal = SignalCategory.GoShort ∧ side = Side.Buy) then
        [TraderOp.cancelOp,
          TraderOp.openOp
            (if signal = SignalCategory.GoLong then Side.Buy else Side.Sell)]
      else []
    | TradeStatus.PartiallyOpen => [TraderOp.amendOp, TraderOp.tryCloseOp]
    | TradeStatus.PendingCloseOrder => [TraderOp.tryCloseOp]
    | _ => []
  | none =>
    match signal with
    | SignalCategory.GoLong => [TraderOp.openOp Side.Buy]
    | SignalCategory.GoShort => [TraderOp.openOp Side.Sell]
    | _ => []

/-- C3: the claim fails on the code: a `close_long` signal received while the
current trade's status is `PendingCloseOrder` invokes `try_close_position` —
the signal is not ignored. -/
theorem pending_close_signal_not_ignored :
    processLastSignal (some (TradeStatus.PendingCloseOrder, Side.Buy))
        SignalCategory.CloseLong = [TraderOp.tryCloseOp] ∧
    processLastSignal (some (TradeStatus.PendingCloseOrder, Side.Buy))
        SignalCategory.CloseLong ≠ ([] : List TraderOp) := by
  exact ⟨rfl, by decide⟩

/-- C3 (amended): for every signal received while the current trade's status
is `PendingCloseOrder`, the state machine invokes exactly
`try_close_position` at the last price — no cancel, no amend and no open —
because `PendingCloseOrder` shares the `PartiallyOpen` arm with the amend
step skipped. -/
theorem pending_close_always_tries_close (signal : SignalCategory)
    (side : Side) :
    processLastSignal (some (TradeStatus.PendingCloseOrder, side)) signal =
      [TraderOp.tryCloseOp] := by
  rfl

/-! ## CleanUp drain of the temp-executions buffer
(`get_process_trading_data_handle`, `trader.rs`) -/

/-- An exchange execution event (`{id, order_uuid, …}`); only the fields the
drain loop reads are kept. -/
structure Execution where
  id : String
  order_uuid : String
deriving DecidableEq, Repr

/-- The match condition of the CleanUp drain: the execution belongs to the
current trade's open order, or the close-order uuid is non-empty and it
belongs to the close order. -/
def drainMatches (openUuid closeUuid : String) (e : Execution) : Bool :=
  e.order_uuid == openUuid || (closeUuid != "" && e.order_uuid == closeUuid)

/-- The CleanUp stage's drain loop
`while let Some(execution) = temp_executions_guard.iter().next() { … }`:
each iteration calls `.iter()` on the unchanged buffer and takes `.next()` of
the fresh iterator, so it examines the buffer's *first* element every time and
never removes anything inside the loop.  Fuel-indexed evaluation: `some`
means the loop exited normally with the accumulated `pending` executions,
`none` means the fuel was exhausted with the loop still running. -/
def cleanUpDrainLoop (openUuid closeUuid : String) :
    Nat → List Execution → List Execution → Option (List Execution)
  | 0, _, _ => none
  | _ + 1, [], pending => some pending
  | fuel + 1, e :: buf, pending =>
      cleanUpDrainLoop openUuid closeUuid fuel (e :: buf)
        (if drainMatches openUuid closeUuid e then pending ++ [e] else pending)

/-- C6: the claim fails on the code: whenever the temp-executions buffer is
non-empty — in particular when it holds an execution matching the trade's
open or close order — the CleanUp drain loop never terminates: no amount of
fuel makes it exit. -/
theorem cleanup_drain_never_terminates (openUuid closeUuid : String)
    (e : Execution) (buf pending : List Execution) :
    ∀ fuel : Nat,
      cleanUpDrainLoop openUuid closeUuid fuel (e :: buf) pending = none := by
  intro fuel
  induction fuel generalizing pending with
  | zero => rfl
  | succ n ih => exact ih _

/-! ## Benchmark tail rewind (`compute_benchmark_positions`, end of loop) -/

/-- The seven per-bar result vectors built by `compute_benchmark_positions`
(`trade_fees`, `units`, `profit_and_loss`, `returns`, `balances`,
`positions`, `actions`). -/
structure BenchColumns where
  trade_fees : List ℚ
  units : List ℚ
  profit_and_loss : List ℚ
  returns : List ℚ
  balances : List ℚ
  positions : List Int
  actions : List SignalCategory
deriving DecidableEq, Repr

/-- `positions.iter().enumerate().rev().find(|(_, v)| v == &&0)`: the greatest
index holding position 0, written as a structural recursion. -/
def lastFlatIndex : List Int → Option Nat
  | [] => none
  | p :: tl =>
    match lastFlatIndex tl with
    | some k => some (k + 1)
    | none => if p = 0 then some 0 else none

/-- `vec.splice(k..len, patch)` where the patch repeats one value: keep the
first `k` elements and overwrite the rest. -/
def spliceFrom (k : Nat) (v : α) (l : List α) : List α :=
  l.take k ++ List.replicate (l.length - k) v

/-- The tail rewind of `compute_benchmark_positions`: if the last bar leaves a
position open, splice every vector from the most recent flat index `k` to the
end with zeros / `KeepPosition`, and the balances with `balances[k]`. -/
def tailRewind (cols : BenchColumns) : BenchColumns :=
  match cols.positions.getLast? with
  | none => cols
  | some p =>
    if p = 0 then cols
    else
      match lastFlatIndex cols.positions with
      | none => cols
      | some k =>
        let previousBalance := cols.balances.getD k 0
        { trade_fees := spliceFrom k 0 cols.trade_fees
          units := spliceFrom k 0 cols.units
          profit_and_loss := spliceFrom k 0 cols.profit_and_loss
          returns := spliceFrom k 0 cols.returns
          balances := spliceFrom k previousBalance cols.balances
          positions := spliceFrom k 0 cols.positions
          actions := spliceFrom k SignalCategory.KeepPosition cols.actions }

theorem getD_replicate (n : Nat) (v d : α) (i : Nat) :
    (List.replicate n v).getD i d = if i < n then v else d := by
  induction n generalizing i with
  | zero => simp
  | succ m ih =>
    cases i with
    | zero => simp [List.replicate]
    | succ j =>
      simp only [List.replicate, List.getD_cons_succ, ih j,
        Nat.succ_lt_succ_iff]

theorem spliceFrom_getD (k : Nat) (v : α) (l : List α) (d : α) (i : Nat) :
    (spliceFrom k v l).getD i d =
      if i < k ∧ i < l.length then l.getD i d
      else if i < l.length then v else d := by
  induction l generalizing k i with
  | nil => simp [spliceFrom]
  | cons a tl ih =>
    cases k with
    | zero =>
      simp only [spliceFrom, List.take_zero, List.nil_append, Nat.sub_zero]
      rw [getD_replicate]
      simp
    | succ m =>
      cases i with
      | zero => simp [spliceFrom, List.replicate]
      | succ j =>
        have hstep : spliceFrom (m + 1) v (a :: tl) = a :: spliceFrom m v tl := by
          simp [spliceFrom, List.take_succ_cons, Nat.succ_sub_succ]
        rw [hstep, List.getD_cons_succ, ih m j]
        simp [Nat.succ_lt_succ_iff]

theorem lastFlatIndex_none (ps : List Int) (h : lastFlatIndex ps = none) :
    ∀ j, j < ps.length → ps.getD j 1 ≠ 0 := by
  induction ps with
  | nil => intro j hj; simp at hj
  | cons p tl ih =>
    intro j hj
    unfold lastFlatIndex at h
    cases htl : lastFlatIndex tl with
    | some k => rw [htl] at h; exact absurd h (by simp)
    | none =>
      rw [htl] at h
      by_cases hp : p = 0
      · rw [if_pos hp] at h; exact absurd h (by simp)
      · cases j with
        | zero => simpa using hp
        | succ j0 =>
          rw [List.getD_cons_succ]
          exact ih htl j0 (by simpa [Nat.succ_lt_succ_iff] using hj)

theorem lastFlatIndex_spec (ps : List Int) (k : Nat)
    (h : lastFlatIndex ps = some k) :
    k < ps.length ∧ ps.getD k 1 = 0 ∧
      ∀ j, k < j → j < ps.length → ps.getD j 1 ≠ 0 := by
  induction ps generalizing k with
  | nil => exact absurd h (by simp [lastFlatIndex])
  | cons p tl ih =>
    unfold lastFlatIndex at h
    cases htl : lastFlatIndex tl with
    | some k0 =>
      rw [htl] at h
      have hk : k = k0 + 1 := by
        have := h; simp at this; omega
      subst hk
      obtain ⟨h1, h2, h3⟩ := ih k0 htl
      refine ⟨by simpa [Nat.succ_lt_succ_iff] using h1, by simpa using h2, ?_⟩
      intro j hj hjlen
      cases j with
      | zero => omega
      | succ j0 =>
        rw [List.getD_cons_succ]
        exact h3 j0 (by omega) (by simpa [Nat.succ_lt_succ_iff] using hjlen)
    | none =>
      rw [htl] at h
      by_cases hp : p = 0
      · rw [if_pos hp] at h
        have hk : k = 0 := by simpa using h.symm
        subst hk
        refine ⟨by simp, by simpa using hp, ?_⟩
        intro j hj hjlen
        cases j with
        | zero => omega
        | succ j0 =>
          rw [List.getD_cons_succ]
          exact lastFlatIndex_none tl htl j0
            (by simpa [Nat.succ_lt_succ_iff] using hjlen)
      · rw [if_neg hp] at h; exact absurd h (by simp)

/-- C4: whenever the last position is non-zero, with `k` the most recent flat
index (which `lastFlatIndex` computes: `positions[k] = 0` and every later
position is non-zero), the rewound output has, on every row from `k` to the
end, fee 0, units 0, pnl 0, returns 0, action `KeepPosition`, position 0 and
balance equal to the input balance at row `k`; every row before `k` is
unchanged in all seven columns. -/
theorem benchmark_tail_rewind_spec (cols : BenchColumns) (n k : Nat) (p : Int)
    (hf : cols.trade_fees.length = n) (hu : cols.units.length = n)
    (hpnl : cols.profit_and_loss.length = n) (hr : cols.returns.length = n)
    (hb : cols.balances.length = n) (hpos : cols.positions.length = n)
    (ha : cols.actions.length = n)
    (hlast : cols.positions.getLast? = some p) (hnz : p ≠ 0)
    (hk : lastFlatIndex cols.positions = some k) :
    (cols.positions.getD k 1 = 0 ∧
      ∀ j, k < j → j < n → cols.positions.getD j 1 ≠ 0) ∧
    (∀ i, k ≤ i → i < n →
      (tailRewind cols).trade_fees.getD i 1 = 0 ∧
      (tailRewind cols).units.getD i 1 = 0 ∧
      (tailRewind cols).profit_and_loss.getD i 1 = 0 ∧
      (tailRewind cols).returns.getD i 1 = 0 ∧
      (tailRewind cols).actions.getD i SignalCategory.GoLong =
        SignalCategory.KeepPosition ∧
      (tailRewind cols).positions.getD i 1 = 0 ∧
      (tailRewind cols).balances.getD i 0 = cols.balances.getD k 0) ∧
    (∀ i, i < k →
      (tailRewind cols).trade_fees.getD i 1 = cols.trade_fees.getD i 1 ∧
      (tailRewind cols).units.getD i 1 = cols.units.getD i 1 ∧
      (tailRewind cols).profit_and_loss.getD i 1 =
        cols.profit_and_loss.getD i 1 ∧
      (tailRewind cols).returns.getD i 1 = cols.returns.getD i 1 ∧
      (tailRewind cols).actions.getD i SignalCategory.GoLong =
        cols.actions.getD i SignalCategory.GoLong ∧
      (tailRewind cols).positions.getD i 1 = cols.positions.getD i 1 ∧
      (tailRewind cols).balances.getD i 0 = cols.balances.getD i 0) := by
  obtain ⟨hklt, hkzero, hkafter⟩ := lastFlatIndex_spec cols.positions k hk
  have hkn : k < n := hpos ▸ hklt
  have hrw : tailRewind cols =
      { trade_fees := spliceFrom k 0 cols.trade_fees
        units := spliceFrom k 0 cols.units
        profit_and_loss := spliceFrom k 0 cols.profit_and_loss
        returns := spliceFrom k 0 cols.returns
        balances := spliceFrom k (cols.balances.getD k 0) cols.balances
        positions := spliceFrom k 0 cols.positions
        actions := spliceFrom k SignalCategory.KeepPosition cols.actions } := by
    unfold tailRewind
    rw [hlast]
    simp only [if_neg hnz, hk]
  refine ⟨⟨hkzero, fun j hj hjn => hkafter j hj (hpos ▸ hjn)⟩, ?_, ?_⟩
  · intro i hki hin
    rw [hrw]
    have hnotlt : ¬ (i < k) := by omega
    refine ⟨?_, ?_, ?_, ?_, ?_, ?_, ?_⟩ <;>
      · simp only [spliceFrom_getD, hf, hu, hpnl, hr, hb, hpos, ha]
        rw [if_neg (by omega), if_pos hin]
  · intro i hik
    rw [hrw]
    have hin : i < n := by omega
    refine ⟨?_, ?_, ?_, ?_, ?_, ?_, ?_⟩ <;>
      · simp only [spliceFrom_getD, hf, hu, hpnl, hr, hb, hpos, ha]
        rw [if_pos ⟨hik, hin⟩]

/-- C4 witness: a two-row instance whose second row leaves a long open; row 1
is rewound to fee 0 and to row 0's balance, and row 0 keeps its balance. -/
theorem benchmark_tail_rewind_spec_witness :
    (tailRewind
        { trade_fees := [0, 3], units := [0, 2], profit_and_loss := [0, 1]
          returns := [0, 1], balances := [7, 4], positions := [0, 1]
          actions := [SignalCategory.KeepPosition, SignalCategory.GoLong]
          }).trade_fees.getD 1 1 = 0 ∧
    (tailRewind
        { trade_fees := [0, 3], units := [0, 2], profit_and_loss := [0, 1]
          returns := [0, 1], balances := [7, 4], positions := [0, 1]
          actions := [SignalCategory.KeepPosition, SignalCategory.GoLong]
          }).balances.getD 1 0 = 7 ∧
    (tailRewind
        { trade_fees := [0, 3], units := [0, 2], profit_and_loss := [0, 1]
          returns := [0, 1], balances := [7, 4], positions := [0, 1]
          actions := [SignalCategory.KeepPosition, SignalCategory.GoLong]
          }).balances.getD 0 0 = 7 := by
  have h := benchmark_tail_rewind_spec
    { trade_fees := [0, 3], units := [0, 2], profit_and_loss := [0, 1]
      returns := [0, 1], balances := [7, 4], positions := [0, 1]
      actions := [SignalCategory.KeepPosition, SignalCategory.GoLong] }
    2 0 1 rfl rfl rfl rfl rfl rfl rfl rfl (by decide) rfl
  obtain ⟨-, hmid, hpre⟩ := h
  refine ⟨(hmid 1 (by decide) (by decide)).1, ?_, ?_⟩
  · have := (hmid 1 (by decide) (by decide)).2.2.2.2.2.2
    simpa using this
  · have := (hmid 0 (by decide) (by decide)).2.2.2.2.2.2
    simpa using this

/-! ## Benchmark simulator (`compute_benchmark_positions`, `strategy.rs`)

Prices and balances are exact rationals.  The `Trade`/`Order` helpers and the
Bybit `BenchmarkExchange` implementation are not under `src/`; they are
modelled from the spec (§3 invariants, §4.4 sizing and threshold rules, and
the commented legacy `LeveragedOrder` the file itself carries), as marked on
each definition.  The per-bar control flow is transcribed from
`compute_benchmark_positions` itself. -/

/-- One OHLC bar of the traded symbol (`start_time` in ms and the four price
columns the benchmark reads). -/
structure Bar where
  startTime : Int
  openPrice : ℚ
  highPrice : ℚ
  lowPrice : ℚ
  closePrice : ℚ
deriving DecidableEq, Repr

/-- Contract constants of the traded symbol (fee rate and order-size
bounds), per the data model. -/
structure ContractParams where
  feeRate : ℚ
  minimumOrderSize : ℚ
  maximumOrderSize : ℚ
  maxLeverage : ℚ
deriving DecidableEq, Repr

/-- The slice of `TradingSettings` the benchmark reads: leverage factor, the
`sl`/`tp`/`tsl` price-level modifiers and the `sinals_revert_its_opposite`
flag (spelling as in the source). -/
structure TradingSettingsB where
  leverageFactor : ℚ
  stopLoss : Option ℚ
  takeProfit : Option ℚ
  trailingStopLoss : Option (ℚ × ℚ)
  sinalsRevertItsOpposite : Bool
deriving DecidableEq, Repr

/-- A benchmark order: timestamp, side, units, entry/exit price, executed
fee, status, plus the leverage factor and fee rate it was created under. -/
structure BOrder where
  timestamp : Int
  side : Side
  units : ℚ
  price : ℚ
  executedFee : ℚ
  status : OrderStatus
  leverageFactor : ℚ
  feeRate : ℚ
deriving DecidableEq, Repr

/-- Modelled from the spec: bankruptcy price of a leveraged position
(short: `price·(lev+1)/lev`, long: `price·(lev−1)/lev`), as in the legacy
`LeveragedOrder` block kept in `strategy.rs`. -/
def bankruptcyPrice (side : Side) (price lev : ℚ) : ℚ :=
  match side with
  | Side.Sell => price * (lev + 1) / lev
  | Side.Buy => price * (lev - 1) / lev
  | Side.Nil => 0

/-- Modelled from the spec: `Order::get_order_cost` — initial margin plus the
open fee plus the estimated close fee at the bankruptcy price (glossary
"Order cost"). -/
def BOrder.get_order_cost (o : BOrder) : ℚ :=
  o.units * o.price / o.leverageFactor + o.executedFee +
    o.units * bankruptcyPrice o.side o.price o.leverageFactor * o.feeRate

/-- The `position_mod` of the sizing formula: `+fee` for a short, `−fee` for
a long. -/
def openPositionMod (f : ℚ) : Side → ℚ
  | Side.Sell => f
  | Side.Buy => -f
  | Side.Nil => 0

/-- Modelled from the spec: `create_benchmark_open_order` (the Bybit
`BenchmarkExchange` implementation is not under `src/`).  Sizing per §4.4:
`units = balance·leverage / (price·(1 + 2·fee·leverage ± fee))` with the sign
tracking the side, the fractional remainder w.r.t. the minimum order size
dropped, and the contract bounds enforced (`None` models the `Err` that the
caller logs and skips). -/
def createBenchmarkOpenOrder (params : ContractParams)
    (settings : TradingSettingsB) (ts : Int) (side : Side)
    (balance price : ℚ) : Option BOrder :=
  let lev := settings.leverageFactor
  let f := params.feeRate
  let unitsRaw :=
    balance * lev / (price * (2 * f * lev + (1 + openPositionMod f side)))
  let fractUnits :=
    unitsRaw - params.minimumOrderSize * (⌊unitsRaw / params.minimumOrderSize⌋ : ℤ)
  let units := unitsRaw - fractUnits
  if units = 0 ∨ units < params.minimumOrderSize ∨
      units > params.maximumOrderSize ∨ lev > params.maxLeverage then
    none
  else
    some { timestamp := ts, side := side, units := units, price := price
           executedFee := units * price * f, status := OrderStatus.Filled
           leverageFactor := lev, feeRate := f }

/-- Modelled from the spec: `create_benchmark_close_order` — a close order of
the trade's full units at the given price and timestamp, with the taker fee
executed and the given final status. -/
def createBenchmarkCloseOrder (ts : Int) (price : ℚ) (openOrder : BOrder)
    (finalStatus : OrderStatus) : BOrder :=
  { timestamp := ts, side := openOrder.side.opposite, units := openOrder.units
    price := price, executedFee := openOrder.units * price * openOrder.feeRate
    status := finalStatus, leverageFactor := openOrder.leverageFactor
    feeRate := openOrder.feeRate }

/-- A benchmark trade: the open order and, once closing, the close order. -/
structure BTrade where
  openOrder : BOrder
  closeOrder : Option BOrder
deriving DecidableEq, Repr

/-- Modelled from the spec: `Trade::get_executed_fees` — the fees executed so
far (`fee = Σ exec.fee` per §3); for a fresh open trade this is the open
order's fee. -/
def BTrade.get_executed_fees (t : BTrade) : ℚ :=
  t.openOrder.executedFee +
    (match t.closeOrder with
     | some co => co.executedFee
     | none => 0)

/-- Modelled from the spec: pnl and returns of a position evaluated at a
close price (§3: `pnl = units·(close − open) − open_fee − close_fee`,
symmetric for shorts; returns as in the legacy `get_close_data`:
`amount / order_cost − 1` with the close fee taken at the close price). -/
def calcPnlAndReturns (o : BOrder) (closePrice : ℚ) : ℚ × ℚ :=
  let revenue :=
    match o.side with
    | Side.Buy => o.units * (closePrice - o.price)
    | Side.Sell => o.units * (o.price - closePrice)
    | Side.Nil => 0
  let closeFee := o.units * closePrice * o.feeRate
  let pnl := revenue - o.executedFee - closeFee
  let costAtClose := o.units * o.price / o.leverageFactor + o.executedFee + closeFee
  let amount := max 0 (costAtClose + pnl)
  (pnl, amount / costAtClose - 1)

/-- Modelled from the spec: `Trade::calculate_pnl_and_returns` of a closed
trade — evaluated at the close order's price. -/
def BTrade.calculate_pnl_and_returns (t : BTrade) : ℚ × ℚ :=
  match t.closeOrder with
  | some co => calcPnlAndReturns t.openOrder co.price
  | none => (0, 0)

/-- Modelled from the spec: `Trade::calculate_current_pnl_and_returns` at a
timestamp and price — the timestamp does not enter the arithmetic. -/
def BTrade.calculate_current_pnl_and_returns (t : BTrade) (_ts : Int)
    (price : ℚ) : ℚ × ℚ :=
  calcPnlAndReturns t.openOrder price

/-- Modelled from the spec: `Trade::check_price_level_modifiers` (not under
`src/`; §4.4 price-level check with tie-break bankruptcy > SL > TP > TSL, and
the legacy block of `strategy.rs`).  It receives one reference price and the
timestamp its caller passes — the call site in `compute_benchmark_positions`
passes the *previous bar's* close and end-timestamp — and on a hit returns
the trade closed with the matching stopped status. -/
def checkPriceLevelModifiers (trade : BTrade) (ts : Int) (refPrice : ℚ)
    (stopLoss takeProfit : Option ℚ) (trailingStopLoss : Option (ℚ × ℚ))
    (currentPeakReturns : ℚ) : Option BTrade :=
  let o := trade.openOrder
  let bank := bankruptcyPrice o.side o.price o.leverageFactor
  let closeWith (price : ℚ) (status : OrderStatus) : BTrade :=
    { trade with closeOrder := some (createBenchmarkCloseOrder ts price o status) }
  if o.leverageFactor > 1 ∧ o.side = Side.Sell ∧ bank ≤ refPrice then
    some (closeWith bank OrderStatus.StoppedBR)
  else if o.leverageFactor > 1 ∧ o.side = Side.Buy ∧ bank ≥ refPrice then
    some (closeWith bank OrderStatus.StoppedBR)
  else
    let rets := (calcPnlAndReturns o refPrice).2
    let slHit : Bool :=
      match stopLoss with
      | some pct => decide (rets < 0 ∧ pct ≤ |rets|)
      | none => false
    let tpHit : Bool :=
      match takeProfit with
      | some pct => decide (rets > 0 ∧ pct ≤ |rets|)
      | none => false
    let tslHit : Bool :=
      match trailingStopLoss with
      | some (pct, startPct) =>
        decide (startPct < currentPeakReturns ∧
          rets ≤ max (pct * currentPeakReturns) startPct)
      | none => false
    if slHit then some (closeWith refPrice OrderStatus.StoppedSL)
    else if tpHit then some (closeWith refPrice OrderStatus.StoppedTP)
    else if tslHit then some (closeWith refPrice OrderStatus.StoppedTSL)
    else none

/-- The `match close_order.status { StoppedBR => LeverageBankrupcty, … }` of
the stop branch of `compute_benchmark_positions`. -/
def stopActionFor : OrderStatus → SignalCategory
  | OrderStatus.StoppedBR => SignalCategory.LeverageBankrupcty
  | OrderStatus.StoppedSL => SignalCategory.StopLoss
  | OrderStatus.StoppedTP => SignalCategory.TakeProfit
  | OrderStatus.StoppedTSL => SignalCategory.TrailingStopLoss
  | _ => SignalCategory.KeepPosition

/-- One row of the benchmark output. -/
structure BenchRow where
  fee : ℚ
  unitsHeld : ℚ
  pnl : ℚ
  rets : ℚ
  balance : ℚ
  position : Int
  action : SignalCategory
deriving DecidableEq, Repr

/-- The loop-carried state of `compute_benchmark_positions`:
`current_trade` and `current_peak_returns`. -/
structure BenchState where
  trade : Option BTrade
  peak : ℚ
deriving DecidableEq, Repr

/-- The data the per-bar step reads at index `i`: bar `i-1`, bar `i`, and the
four signal-column values at `i-1` (as `value == 1`). -/
structure StepInput where
  prevBar : Bar
  bar : Bar
  goShortSig : Bool
  goLongSig : Bool
  closeShortSig : Bool
  closeLongSig : Bool
deriving DecidableEq, Repr

/-- The price-level guard of the in-position branch:
`has_leverage || stop_loss.is_some() || take_profit.is_some() ||
trailing_stop_loss.is_some()`. -/
def modifiersEnabled (settings : TradingSettingsB) : Prop :=
  settings.leverageFactor > 1 ∨ settings.stopLoss.isSome = true ∨
    settings.takeProfit.isSome = true ∨ settings.trailingStopLoss.isSome = true

instance (settings : TradingSettingsB) : Decidable (modifiersEnabled settings) := by
  unfold modifiersEnabled
  infer_instance

/-- The flat-position open attempt of `compute_benchmark_positions`: on `Ok`
it pushes the open row (fee, units, pnl 0, returns at the bar's close,
`max(0, balance − order_cost)`, side position, go action) and installs the
trade; `None` models the logged `Err`. -/
def benchOpenAttempt (params : ContractParams) (settings : TradingSettingsB)
    (inp : StepInput) (currentBalance : ℚ) (st : BenchState) (side : Side)
    (action : SignalCategory) : Option (BenchRow × BenchState) :=
  match createBenchmarkOpenOrder params settings inp.bar.startTime side
      currentBalance inp.bar.openPrice with
  | some openOrder =>
    let openTrade : BTrade := { openOrder := openOrder, closeOrder := none }
    let tradeReturns :=
      (openTrade.calculate_current_pnl_and_returns (inp.bar.startTime - 1)
        inp.bar.closePrice).2
    some ({ fee := openTrade.get_executed_fees, unitsHeld := openOrder.units
            pnl := 0, rets := tradeReturns
            balance := max 0 (currentBalance - openOrder.get_order_cost)
            position := openOrder.side.toPosition, action := action },
          { trade := some openTrade, peak := st.peak })
  | none => none

/-- One iteration of the `for index in 0..dataframe_height` loop of
`compute_benchmark_positions` (for `index ≥ 1`), producing the row pushed for
bar `i` and the updated `current_trade`/`current_peak_returns`.

Flat: try `go_short`, then `go_long` (a failed open falls through, as in the
source); otherwise the keep row with returns 0.  In position: first the
price-level check — the source passes `close[i-1]` and
`end_timestamps[i-1] = start_time[i-1] − 1` — then the signal close, whose
revert condition transcribes the source's operator precedence
`a && (b && c) || (d && e)` literally; a reverting close reopens on the close
order's side at `close[i]` with the post-close balance; otherwise the keep
row at the current returns, updating peak returns. -/
def benchStep (settings : TradingSettingsB) (params : ContractParams)
    (inp : StepInput) (prevRow : BenchRow) (st : BenchState) :
    BenchRow × BenchState :=
  let currentPosition := prevRow.position
  let currentUnits := prevRow.unitsHeld
  let currentBalance := prevRow.balance
  let keepRow (rets : ℚ) (st' : BenchState) : BenchRow × BenchState :=
    ({ fee := 0, unitsHeld := currentUnits, pnl := 0, rets := rets
       balance := currentBalance, position := currentPosition
       action := SignalCategory.KeepPosition }, st')
  if currentPosition = 0 then
    match
      (if inp.goShortSig then
        benchOpenAttempt params settings inp currentBalance st Side.Sell
          SignalCategory.GoShort
      else none) with
    | some result => result
    | none =>
      match
        (if inp.goLongSig then
          benchOpenAttempt params settings inp currentBalance st Side.Buy
            SignalCategory.GoLong
        else none) with
      | some result => result
      | none => keepRow 0 st
  else
    match st.trade with
    | none => keepRow 0 st
    | some trade =>
      let stopRes :=
        if modifiersEnabled settings then
          checkPriceLevelModifiers trade (inp.prevBar.startTime - 1)
            inp.prevBar.closePrice settings.stopLoss settings.takeProfit
            settings.trailingStopLoss st.peak
        else none
      match stopRes with
      | some closedTrade =>
        match closedTrade.closeOrder with
        | some closeOrder =>
          let pr := closedTrade.calculate_pnl_and_returns
          ({ fee := closeOrder.executedFee, unitsHeld := 0, pnl := pr.1
             rets := pr.2
             balance := currentBalance + trade.openOrder.get_order_cost + pr.1
             position := 0, action := stopActionFor closeOrder.status },
           { trade := none, peak := 0 })
        | none => keepRow 0 st
      | none =>
        let currentSide := trade.openOrder.side
        let wasLongClosed :=
          inp.closeLongSig = true ∧ currentSide = Side.Buy
        let wasShortClosed :=
          inp.closeShortSig = true ∧ currentSide = Side.Sell
        let wasPositionReverted :=
          (settings.sinalsRevertItsOpposite = true ∧
            inp.goLongSig = true ∧ currentSide = Side.Sell) ∨
          (inp.goShortSig = true ∧ currentSide = Side.Buy)
        if wasLongClosed ∨ wasShortClosed ∨ wasPositionReverted then
          let closeSignal :=
            if wasPositionReverted then SignalCategory.RevertPosition
            else if wasLongClosed then SignalCategory.CloseLong
            else if wasShortClosed then SignalCategory.CloseShort
            else SignalCategory.KeepPosition
          let closeOrder := createBenchmarkCloseOrder inp.bar.startTime
            inp.bar.openPrice trade.openOrder OrderStatus.Closed
          let updatedTrade : BTrade := { trade with closeOrder := some closeOrder }
          let pr := updatedTrade.calculate_pnl_and_returns
          if closeSignal ≠ SignalCategory.RevertPosition then
            ({ fee := closeOrder.executedFee, unitsHeld := 0, pnl := pr.1
               rets := pr.2
               balance := currentBalance + trade.openOrder.get_order_cost + pr.1
               position := 0, action := closeSignal },
             { trade := none, peak := 0 })
          else
            let afterCloseBalance :=
              currentBalance + trade.openOrder.get_order_cost + pr.1
            match createBenchmarkOpenOrder params settings
                (inp.bar.startTime - 1) closeOrder.side afterCloseBalance
                inp.bar.closePrice with
            | some openOrder2 =>
              let openTrade2 : BTrade := { openOrder := openOrder2, closeOrder := none }
              ({ fee := closeOrder.executedFee + openTrade2.get_executed_fees
                 unitsHeld := openOrder2.units, pnl := pr.1, rets := pr.2
                 balance := max 0 (afterCloseBalance - openOrder2.get_order_cost)
                 position := openOrder2.side.toPosition, action := closeSignal },
               { trade := some openTrade2, peak := 0 })
            | none =>
              ({ fee := closeOrder.executedFee, unitsHeld := 0, pnl := pr.1
                 rets := pr.2, balance := afterCloseBalance, position := 0
                 action := SignalCategory.ClosePosition },
               { trade := none, peak := 0 })
        else
          let curr := trade.calculate_current_pnl_and_returns
            (inp.bar.startTime - 1) inp.bar.closePrice
          let peakNext :=
            if curr.2 > 0 ∧ curr.2 > st.peak then curr.2 else st.peak
          keepRow curr.2 { trade := st.trade, peak := peakNext }

/-- The loop over indices `1 .. height`, threading the previous row and the
state, collecting the pushed rows. -/
def benchLoop (settings : TradingSettingsB) (params : ContractParams) :
    List StepInput → BenchRow → BenchState → List BenchRow
  | [], _, _ => []
  | inp :: rest, prevRow, st =>
    let step := benchStep settings params inp prevRow st
    step.1 :: benchLoop settings params rest step.1 step.2

/-- Pair each bar transition `i-1 → i` with the signal-column values at
`i-1` (`shorts_col[index-1] == 1` etc.). -/
def stepInputs : List Bar → List Int → List Int → List Int → List Int →
    List StepInput
  | b0 :: b1 :: bs, shorts, longs, closeShorts, closeLongs =>
    { prevBar := b0, bar := b1
      goShortSig := decide (shorts.headD 0 = 1)
      goLongSig := decide (longs.headD 0 = 1)
      closeShortSig := decide (closeShorts.headD 0 = 1)
      closeLongSig := decide (closeLongs.headD 0 = 1) } ::
      stepInputs (b1 :: bs) shorts.tail longs.tail closeShorts.tail
        closeLongs.tail
  | _, _, _, _, _ => []

/-- Row 0, seeded before the loop: zeros, the benchmark balance, neutral
position and `keep_position`. -/
def initialBenchRow (benchmarkBalance : ℚ) : BenchRow :=
  { fee := 0, unitsHeld := 0, pnl := 0, rets := 0, balance := benchmarkBalance
    position := 0, action := SignalCategory.KeepPosition }

/-- All rows of the benchmark walk (row 0 plus one row per later bar),
before the tail rewind. -/
def benchRows (settings : TradingSettingsB) (params : ContractParams)
    (bars : List Bar) (shorts longs closeShorts closeLongs : List Int)
    (benchmarkBalance : ℚ) : List BenchRow :=
  initialBenchRow benchmarkBalance ::
    benchLoop settings params
      (stepInputs bars shorts longs closeShorts closeLongs)
      (initialBenchRow benchmarkBalance) { trade := none, peak := 0 }

/-- Project the rows into the seven result vectors. -/
def rowsToColumns (rows : List BenchRow) : BenchColumns :=
  { trade_fees := rows.map (fun r => r.fee)
    units := rows.map (fun r => r.unitsHeld)
    profit_and_loss := rows.map (fun r => r.pnl)
    returns := rows.map (fun r => r.rets)
    balances := rows.map (fun r => r.balance)
    positions := rows.map (fun r => r.position)
    actions := rows.map (fun r => r.action) }

/-- `compute_benchmark_positions`: the walk followed by the tail rewind. -/
def computeBenchmarkPositions (settings : TradingSettingsB)
    (params : ContractParams) (bars : List Bar)
    (shorts longs closeShorts closeLongs : List Int)
    (benchmarkBalance : ℚ) : BenchColumns :=
  tailRewind (rowsToColumns
    (benchRows settings params bars shorts longs closeShorts closeLongs
      benchmarkBalance))

/-! ## Concrete benchmark scenarios -/

/-- Fee-free contract, minimum order size 1. -/
def scParamsNoFee : ContractParams :=
  { feeRate := 0, minimumOrderSize := 1, maximumOrderSize := 1000
    maxLeverage := 100 }

/-- Contract with a 1% taker fee. -/
def scParamsFee : ContractParams :=
  { feeRate := 1/100, minimumOrderSize := 1, maximumOrderSize := 1000
    maxLeverage := 100 }

/-- Leverage 1, no price-level modifiers, `signals_revert_opposite` *off*. -/
def scSettingsPlain : TradingSettingsB :=
  { leverageFactor := 1, stopLoss := none, takeProfit := none
    trailingStopLoss := none, sinalsRevertItsOpposite := false }

/-- Leverage 1, a 10% stop loss, `signals_revert_opposite` off. -/
def scSettingsSL : TradingSettingsB :=
  { leverageFactor := 1, stopLoss := some (1/10), takeProfit := none
    trailingStopLoss := none, sinalsRevertItsOpposite := false }

/-- A flat 100-price bar at a given start time. -/
def scFlatBar (ts : Int) : Bar :=
  { startTime := ts, openPrice := 100, highPrice := 100, lowPrice := 100
    closePrice := 100 }

/-- A long position of 1 unit opened at 100 with no fee, leverage 1. -/
def scTradeLong : BTrade :=
  { openOrder :=
      { timestamp := 60000, side := Side.Buy, units := 1, price := 100
        executedFee := 0, status := OrderStatus.Filled, leverageFactor := 1
        feeRate := 0 }
    closeOrder := none }

/-- The row of the bar on which `scTradeLong` was opened. -/
def scRowLong : BenchRow :=
  { fee := 0, unitsHeld := 1, pnl := 0, rets := 0, balance := 0, position := 1
    action := SignalCategory.GoLong }

/-- Loop state holding `scTradeLong`. -/
def scStateLong : BenchState := { trade := some scTradeLong, peak := 0 }

/-- C1: the claim fails on the code: with `signals_revert_opposite` disabled
and a long position held, a `go_short` signal at `i-1` alone *does* close the
position at bar `i` — the step closes the long and reopens short
(`revert_position`, position −1) — because the source's revert condition
parses as `(flag && go_long && short) || (go_short && long)`, leaving the
second disjunct ungated by the flag. -/
theorem revert_fires_with_flag_disabled :
    scSettingsPlain.sinalsRevertItsOpposite = false ∧
    (benchStep scSettingsPlain scParamsNoFee
        { prevBar := scFlatBar 60000, bar := scFlatBar 120000
          goShortSig := true, goLongSig := false, closeShortSig := false
          closeLongSig := false } scRowLong scStateLong).1.action =
      SignalCategory.RevertPosition ∧
    (benchStep scSettingsPlain scParamsNoFee
        { prevBar := scFlatBar 60000, bar := scFlatBar 120000
          goShortSig := true, goLongSig := false, closeShortSig := false
          closeLongSig := false } scRowLong scStateLong).1.position = -1 := by
  refine ⟨rfl, ?_, ?_⟩ <;>
    norm_num [benchStep, benchOpenAttempt, createBenchmarkOpenOrder,
      openPositionMod,
      createBenchmarkCloseOrder, checkPriceLevelModifiers, calcPnlAndReturns,
      BTrade.calculate_pnl_and_returns,
      BTrade.calculate_current_pnl_and_returns, BTrade.get_executed_fees,
      BOrder.get_order_cost, bankruptcyPrice, modifiersEnabled, stopActionFor,
      Side.opposite, Side.toPosition, scSettingsPlain, scParamsNoFee,
      scTradeLong, scRowLong, scStateLong, scFlatBar]

/-- C2: the claim fails on the code: with a 10% stop loss configured and a
long held at 100, bar `i`'s low of 50 breaches the claimed threshold
(`100·(1 − 10%) = 90`), yet the step keeps the position, because the check is
fed only the *previous bar's close* (100), not bar `i`'s low/high. -/
theorem price_check_ignores_bar_low :
    (50 : ℚ) ≤ scTradeLong.openOrder.price * (1 - 1/10) ∧
    scSettingsSL.stopLoss = some (1/10) ∧
    (benchStep scSettingsSL scParamsNoFee
        { prevBar := scFlatBar 60000
          bar := { startTime := 120000, openPrice := 100, highPrice := 100
                   lowPrice := 50, closePrice := 100 }
          goShortSig := false, goLongSig := false, closeShortSig := false
          closeLongSig := false } scRowLong scStateLong).1.action =
      SignalCategory.KeepPosition ∧
    (benchStep scSettingsSL scParamsNoFee
        { prevBar := scFlatBar 60000
          bar := { startTime := 120000, openPrice := 100, highPrice := 100
                   lowPrice := 50, closePrice := 100 }
          goShortSig := false, goLongSig := false, closeShortSig := false
          closeLongSig := false } scRowLong scStateLong).1.position = 1 := by
  refine ⟨by norm_num [scTradeLong], rfl, ?_, ?_⟩ <;>
    norm_num [benchStep, benchOpenAttempt, createBenchmarkOpenOrder,
      openPositionMod,
      createBenchmarkCloseOrder, checkPriceLevelModifiers, calcPnlAndReturns,
      BTrade.calculate_pnl_and_returns,
      BTrade.calculate_current_pnl_and_returns, BTrade.get_executed_fees,
      BOrder.get_order_cost, bankruptcyPrice, modifiersEnabled, stopActionFor,
      Side.opposite, Side.toPosition, scSettingsSL, scParamsNoFee,
      scTradeLong, scRowLong, scStateLong, scFlatBar]

theorem checkPriceLevelModifiers_close_metadata (trade : BTrade) (ts : Int)
    (refPrice : ℚ) (sl tp : Option ℚ) (tsl : Option (ℚ × ℚ)) (peak : ℚ)
    (ct : BTrade) (co : BOrder)
    (h : checkPriceLevelModifiers trade ts refPrice sl tp tsl peak = some ct)
    (hco : ct.closeOrder = some co) :
    co.timestamp = ts ∧
      (co.status = OrderStatus.StoppedBR ∨ co.status = OrderStatus.StoppedSL ∨
        co.status = OrderStatus.StoppedTP ∨
        co.status = OrderStatus.StoppedTSL) := by
  simp only [checkPriceLevelModifiers] at h
  split_ifs at h <;>
    (injection h with h
     subst h
     simp only [BTrade.closeOrder] at hco
     injection hco with hco
     subst hco
     exact ⟨rfl, by simp [createBenchmarkCloseOrder]⟩)

/-- C2 (amended): the in-position price-level check is driven by the
*previous* bar's close price, not bar `i`'s low/high: the step's outcome is
invariant under arbitrary changes to the low and high of both bars, and when
the check (computed at `close[i-1]`) fires, the trade closes with a close
order carrying the previous bar's end-timestamp `start_time[i-1] − 1`, the
row's action is the stop category matching the close order's stopped status,
and the position returns to 0. -/
theorem benchmark_price_check_semantics (settings : TradingSettingsB)
    (params : ContractParams) (inp : StepInput) (prevRow : BenchRow)
    (st : BenchState) (t ct : BTrade) (co : BOrder)
    (htrade : st.trade = some t) (hpos : prevRow.position ≠ 0)
    (hmod : modifiersEnabled settings)
    (hck : checkPriceLevelModifiers t (inp.prevBar.startTime - 1)
      inp.prevBar.closePrice settings.stopLoss settings.takeProfit
      settings.trailingStopLoss st.peak = some ct)
    (hco : ct.closeOrder = some co) :
    (∀ lA hA lB hB : ℚ,
      benchStep settings params
        { inp with
            prevBar := { inp.prevBar with lowPrice := lA, highPrice := hA }
            bar := { inp.bar with lowPrice := lB, highPrice := hB } }
        prevRow st =
      benchStep settings params inp prevRow st) ∧
    co.timestamp = inp.prevBar.startTime - 1 ∧
    (benchStep settings params inp prevRow st).1.action =
      stopActionFor co.status ∧
    (benchStep settings params inp prevRow st).1.position = 0 ∧
    (co.status = OrderStatus.StoppedBR ∨ co.status = OrderStatus.StoppedSL ∨
      co.status = OrderStatus.StoppedTP ∨
      co.status = OrderStatus.StoppedTSL) := by
  obtain ⟨hts, hstat⟩ := checkPriceLevelModifiers_close_metadata t
    (inp.prevBar.startTime - 1) inp.prevBar.closePrice settings.stopLoss
    settings.takeProfit settings.trailingStopLoss st.peak ct co hck hco
  have hstep : (benchStep settings params inp prevRow st).1.action =
      stopActionFor co.status ∧
      (benchStep settings params inp prevRow st).1.position = 0 := by
    simp only [benchStep, if_neg hpos, htrade, if_pos hmod, hck, hco]
    exact ⟨trivial, trivial⟩
  refine ⟨?_, hts, hstep.1, hstep.2, hstat⟩
  intro lA hA lB hB
  obtain ⟨pb, b, s1, s2, s3, s4⟩ := inp
  obtain ⟨pts, po, ph, pl, pc⟩ := pb
  obtain ⟨bts, bo, bh, bl, bc⟩ := b
  rfl

/-- A leveraged long: 1 unit at 100, leverage 10, no fee
(bankruptcy price 90). -/
def scTradeLongLev : BTrade :=
  { openOrder :=
      { timestamp := 60000, side := Side.Buy, units := 1, price := 100
        executedFee := 0, status := OrderStatus.Filled, leverageFactor := 10
        feeRate := 0 }
    closeOrder := none }

/-- Leverage 10, no SL/TP/TSL. -/
def scSettingsLev10 : TradingSettingsB :=
  { leverageFactor := 10, stopLoss := none, takeProfit := none
    trailingStopLoss := none, sinalsRevertItsOpposite := false }

/-- The bankruptcy close of `scTradeLongLev` computed at the previous bar's
end-timestamp when `close[i-1] = 50` breaches the bankruptcy price 90. -/
def scCloseBR : BOrder :=
  createBenchmarkCloseOrder 59999 (bankruptcyPrice Side.Buy 100 10)
    scTradeLongLev.openOrder OrderStatus.StoppedBR

/-- C2 (amended) witness: the leveraged long against a previous close of 50
(below the bankruptcy price 90) stops with action `leverage_bankruptcy`,
position 0, and the close order timestamped `start_time[i-1] − 1`. -/
theorem benchmark_price_check_semantics_witness :
    scCloseBR.timestamp = 59999 ∧
    (benchStep scSettingsLev10 scParamsNoFee
        { prevBar := { startTime := 60000, openPrice := 50, highPrice := 50
                       lowPrice := 50, closePrice := 50 }
          bar := scFlatBar 120000, goShortSig := false, goLongSig := false
          closeShortSig := false, closeLongSig := false }
        scRowLong { trade := some scTradeLongLev, peak := 0 }).1.action =
      SignalCategory.LeverageBankrupcty ∧
    (benchStep scSettingsLev10 scParamsNoFee
        { prevBar := { startTime := 60000, openPrice := 50, highPrice := 50
                       lowPrice := 50, closePrice := 50 }
          bar := scFlatBar 120000, goShortSig := false, goLongSig := false
          closeShortSig := false, closeLongSig := false }
        scRowLong { trade := some scTradeLongLev, peak := 0 }).1.position =
      0 := by
  obtain ⟨-, hts, hact, hpos0, -⟩ := benchmark_price_check_semantics
    scSettingsLev10 scParamsNoFee
    { prevBar := { startTime := 60000, openPrice := 50, highPrice := 50
                   lowPrice := 50, closePrice := 50 }
      bar := scFlatBar 120000, goShortSig := false, goLongSig := false
      closeShortSig := false, closeLongSig := false }
    scRowLong { trade := some scTradeLongLev, peak := 0 } scTradeLongLev
    { openOrder := scTradeLongLev.openOrder, closeOrder := some scCloseBR }
    scCloseBR rfl (by decide)
    (Or.inl (by norm_num [scSettingsLev10]))
    (by norm_num [checkPriceLevelModifiers, scTradeLongLev, bankruptcyPrice,
      createBenchmarkCloseOrder, scCloseBR])
    rfl
  exact ⟨hts, by rw [hact]; rfl, hpos0⟩

/-- C10: the claim fails on the code: a fee-paying long round trip over three
flat bars starting from balance 101 ends flat with balance change
`99 − 101 = −2`, pnl column summing to −2 and fee column summing to 2; the
claimed identity would demand `−2 = −2 − 2`.  The pnl column is already net
of fees, so subtracting the fee column again double-counts it. -/
theorem conservation_claim_double_counts_fees :
    (computeBenchmarkPositions scSettingsPlain scParamsFee
        [scFlatBar 60000, scFlatBar 120000, scFlatBar 180000]
        [0, 0, 0] [1, 0, 0] [0, 0, 0] [0, 1, 0] 101).positions.getLast? =
      some 0 ∧
    (computeBenchmarkPositions scSettingsPlain scParamsFee
        [scFlatBar 60000, scFlatBar 120000, scFlatBar 180000]
        [0, 0, 0] [1, 0, 0] [0, 0, 0] [0, 1, 0] 101).balances.getLastD 0 -
      (computeBenchmarkPositions scSettingsPlain scParamsFee
        [scFlatBar 60000, scFlatBar 120000, scFlatBar 180000]
        [0, 0, 0] [1, 0, 0] [0, 0, 0] [0, 1, 0] 101).balances.headD 0 = -2 ∧
    (computeBenchmarkPositions scSettingsPlain scParamsFee
        [scFlatBar 60000, scFlatBar 120000, scFlatBar 180000]
        [0, 0, 0] [1, 0, 0] [0, 0, 0] [0, 1, 0] 101).profit_and_loss.sum =
      -2 ∧
    (computeBenchmarkPositions scSettingsPlain scParamsFee
        [scFlatBar 60000, scFlatBar 120000, scFlatBar 180000]
        [0, 0, 0] [1, 0, 0] [0, 0, 0] [0, 1, 0] 101).trade_fees.sum = 2 ∧
    (-2 : ℚ) ≠ -2 - 2 := by
  refine ⟨?_, ?_, ?_, ?_, by norm_num⟩ <;>
    norm_num [computeBenchmarkPositions, benchRows, benchLoop, benchStep,
      stepInputs, initialBenchRow, rowsToColumns, tailRewind, lastFlatIndex,
      spliceFrom, benchOpenAttempt, createBenchmarkOpenOrder, openPositionMod,
      createBenchmarkCloseOrder, checkPriceLevelModifiers, calcPnlAndReturns,
      BTrade.calculate_pnl_and_returns,
      BTrade.calculate_current_pnl_and_returns, BTrade.get_executed_fees,
      BOrder.get_order_cost, bankruptcyPrice, modifiersEnabled, stopActionFor,
      Side.opposite, Side.toPosition, scSettingsPlain, scParamsFee, scFlatBar,
      (show SignalCategory.CloseLong ≠ SignalCategory.RevertPosition from
        fun h => SignalCategory.noConfusion h),
      (show SignalCategory.CloseShort ≠ SignalCategory.RevertPosition from
        fun h => SignalCategory.noConfusion h)]

/-! ## Benchmark balance conservation -/

/-- The margin reserved by the open state: the open order's cost while a
trade is held, 0 while flat. -/
def costOf (st : BenchState) : ℚ :=
  match st.trade with
  | some t => t.openOrder.get_order_cost
  | none => 0

/-- The invariant tying a row to the loop state: the row is flat exactly when
no trade is held, and a held trade's open side is a real side. -/
def stateCoherent (row : BenchRow) (st : BenchState) : Prop :=
  (row.position = 0 ↔ st.trade = none) ∧
    ∀ t, st.trade = some t → t.openOrder.side ≠ Side.Nil

theorem Side.opposite_ne_nil (s : Side) (h : s ≠ Side.Nil) :
    s.opposite ≠ Side.Nil := by
  cases s <;> simp_all [Side.opposite]

theorem checkPriceLevelModifiers_some_closeOrder (trade : BTrade) (ts : Int)
    (refPrice : ℚ) (sl tp : Option ℚ) (tsl : Option (ℚ × ℚ)) (peak : ℚ)
    (ct : BTrade)
    (h : checkPriceLevelModifiers trade ts refPrice sl tp tsl peak = some ct) :
    ∃ co, ct.closeOrder = some co := by
  simp only [checkPriceLevelModifiers] at h
  split_ifs at h <;>
    (injection h with h
     subst h
     exact ⟨_, rfl⟩)

theorem createBenchmarkOpenOrder_spec (params : ContractParams)
    (settings : TradingSettingsB) (ts : Int) (side : Side)
    (balance price : ℚ) (o : BOrder) (hside : side ≠ Side.Nil)
    (hprice : 0 < price) (hfee : 0 ≤ params.feeRate)
    (hlev : 1 ≤ settings.leverageFactor)
    (hmin : 0 < params.minimumOrderSize)
    (h : createBenchmarkOpenOrder params settings ts side balance price =
      some o) :
    o.get_order_cost ≤ balance ∧ o.side = side ∧ o.side.toPosition ≠ 0 := by
  simp only [createBenchmarkOpenOrder] at h
  split_ifs at h with hguard
  push_neg at hguard
  injection h with h
  subst h
  set lev := settings.leverageFactor with hlevdef
  set f := params.feeRate with hfdef
  set m := params.minimumOrderSize with hmdef
  have hlev0 : (0 : ℚ) < lev := lt_of_lt_of_le one_pos hlev
  set D := 2 * f * lev + (1 + openPositionMod f side) with hDdef
  set unitsRaw := balance * lev / (price * D) with hraw
  set units := unitsRaw - (unitsRaw - m * (⌊unitsRaw / m⌋ : ℤ)) with hunits
  have hD : 0 < D := by
    rw [hDdef]
    cases side with
    | Nil => exact absurd rfl hside
    | Buy =>
      simp only [openPositionMod]
      nlinarith [mul_nonneg hfee (by linarith : (0 : ℚ) ≤ 2 * lev - 1)]
    | Sell =>
      simp only [openPositionMod]
      nlinarith [mul_nonneg hfee (by linarith : (0 : ℚ) ≤ 2 * lev + 1)]
  have hunits_le : units ≤ unitsRaw := by
    have hfl : (⌊unitsRaw / m⌋ : ℚ) ≤ unitsRaw / m := Int.floor_le _
    have hm2 := mul_le_mul_of_nonneg_left hfl (le_of_lt hmin)
    rw [mul_div_cancel₀ _ (ne_of_gt hmin)] at hm2
    rw [hunits]
    linarith
  have hcost : BOrder.get_order_cost
      { timestamp := ts, side := side, units := units, price := price
        executedFee := units * price * f, status := OrderStatus.Filled
        leverageFactor := lev, feeRate := f } =
      units * (price * D / lev) := by
    rw [hDdef]
    cases side with
    | Nil => exact absurd rfl hside
    | Buy =>
      simp only [BOrder.get_order_cost, bankruptcyPrice, openPositionMod]
      field_simp
      ring
    | Sell =>
      simp only [BOrder.get_order_cost, bankruptcyPrice, openPositionMod]
      field_simp
      ring
  have hrawcost : unitsRaw * (price * D / lev) = balance := by
    rw [hraw]
    field_simp
  have hcoef : 0 ≤ price * D / lev := by positivity
  refine ⟨?_, rfl, ?_⟩
  · rw [hcost, ← hrawcost]
    exact mul_le_mul_of_nonneg_right hunits_le hcoef
  · cases side with
    | Nil => exact absurd rfl hside
    | Buy => simp [Side.toPosition]
    | Sell => simp [Side.toPosition]

theorem benchOpenAttempt_spec (params : ContractParams)
    (settings : TradingSettingsB) (inp : StepInput) (currentBalance : ℚ)
    (st : BenchState) (side : Side) (action : SignalCategory) (row : BenchRow)
    (st2 : BenchState) (hside : side ≠ Side.Nil)
    (hprice : 0 < inp.bar.openPrice) (hfee : 0 ≤ params.feeRate)
    (hlev : 1 ≤ settings.leverageFactor)
    (hmin : 0 < params.minimumOrderSize)
    (h : benchOpenAttempt params settings inp currentBalance st side action =
      some (row, st2)) :
    row.balance + costOf st2 = currentBalance ∧ row.pnl = 0 ∧
      (row.position = 0 ↔ st2.trade = none) ∧
      (∀ t, st2.trade = some t → t.openOrder.side ≠ Side.Nil) := by
  simp only [benchOpenAttempt] at h
  cases horder : createBenchmarkOpenOrder params settings inp.bar.startTime
      side currentBalance inp.bar.openPrice with
  | none =>
    rw [horder] at h
    exact Option.noConfusion h
  | some o =>
    rw [horder] at h
    obtain ⟨hcost, hsideEq, hposNe⟩ := createBenchmarkOpenOrder_spec params
      settings inp.bar.startTime side currentBalance inp.bar.openPrice o hside
      hprice hfee hlev hmin horder
    injection h with h
    injection h with hrow hst
    subst hrow
    subst hst
    refine ⟨?_, rfl, ?_, ?_⟩
    · simp only [costOf]
      rw [max_eq_right (by linarith)]
      ring
    · simp only [Option.some_ne_none, iff_false]
      exact hposNe
    · intro t ht
      injection ht with ht
      subst ht
      rw [hsideEq]
      exact hside

/-- Conservation of value across one benchmark step: the row's balance plus
the margin newly reserved equals the previous balance plus the margin
previously reserved plus the row's pnl; coherence of row and state is
preserved. -/
theorem benchStep_conservation (settings : TradingSettingsB)
    (params : ContractParams) (inp : StepInput) (prevRow : BenchRow)
    (st : BenchState) (row : BenchRow) (st2 : BenchState)
    (hfee : 0 ≤ params.feeRate) (hlev : 1 ≤ settings.leverageFactor)
    (hmin : 0 < params.minimumOrderSize) (hopen : 0 < inp.bar.openPrice)
    (hclose : 0 < inp.bar.closePrice) (hcoh : stateCoherent prevRow st)
    (hres : benchStep settings params inp prevRow st = (row, st2)) :
    row.balance + costOf st2 = prevRow.balance + costOf st + row.pnl ∧
      stateCoherent row st2 := by
  obtain ⟨hiff, hsides⟩ := hcoh
  simp only [stateCoherent]
  by_cases hpos : prevRow.position = 0
  · have htr : st.trade = none := hiff.mp hpos
    have hcost0 : costOf st = 0 := by simp [costOf, htr]
    rw [hcost0]
    simp only [benchStep, if_pos hpos] at hres
    split at hres
    next resS heq =>
      rw [hres] at heq
      by_cases hsg : inp.goShortSig = true
      · rw [if_pos hsg] at heq
        obtain ⟨h1, h2, h3, h4⟩ := benchOpenAttempt_spec params settings inp
          prevRow.balance st Side.Sell SignalCategory.GoShort row st2
          (by simp) hopen hfee hlev hmin heq
        exact ⟨by rw [h2]; linarith, h3, h4⟩
      · rw [if_neg hsg] at heq
        exact Option.noConfusion heq
    next heq =>
      split at hres
      next resL heq2 =>
        rw [hres] at heq2
        by_cases hlg : inp.goLongSig = true
        · rw [if_pos hlg] at heq2
          obtain ⟨h1, h2, h3, h4⟩ := benchOpenAttempt_spec params settings inp
            prevRow.balance st Side.Buy SignalCategory.GoLong row st2
            (by simp) hopen hfee hlev hmin heq2
          exact ⟨by rw [h2]; linarith, h3, h4⟩
        · rw [if_neg hlg] at heq2
          exact Option.noConfusion heq2
      next heq2 =>
        injection hres with hrow hst
        subst hrow
        subst hst
        refine ⟨by simp [hcost0], by simp [hpos, htr], ?_⟩
        intro t2 ht2
        rw [htr] at ht2
        exact Option.noConfusion ht2
  · cases htrade : st.trade with
    | none => exact absurd (hiff.mpr htrade) hpos
    | some t =>
      have hcostT : costOf st = t.openOrder.get_order_cost := by
        simp [costOf, htrade]
      rw [hcostT]
      simp only [benchStep, if_neg hpos, htrade] at hres
      split at hres
      next closedTrade heqStop =>
        split at hres
        next closeOrder heqCo =>
          injection hres with hrow hst
          subst hrow
          subst hst
          refine ⟨by simp [costOf], by simp, ?_⟩
          intro t2 ht2
          exact Option.noConfusion ht2
        next heqCo =>
          injection hres with hrow hst
          subst hrow
          subst hst
          refine ⟨by rw [hcostT]; simp, ?_, ?_⟩
          · simp only [iff_iff_implies_and_implies]
            constructor
            · intro h0
              exact absurd h0 hpos
            · intro h0
              rw [htrade] at h0
              exact Option.noConfusion h0
          · exact hsides
      next heqStop =>
        split at hres
        next hsig =>
          by_cases hrev : settings.sinalsRevertItsOpposite = true ∧
              inp.goLongSig = true ∧ t.openOrder.side = Side.Sell ∨
              inp.goShortSig = true ∧ t.openOrder.side = Side.Buy
          · rw [if_pos hrev] at hres
            rw [if_neg (by simp)] at hres
            split at hres
            next o2 heq2 =>
              injection hres with hrow hst
              subst hrow
              subst hst
              have hsideNil : (createBenchmarkCloseOrder inp.bar.startTime
                  inp.bar.openPrice t.openOrder OrderStatus.Closed).side ≠
                  Side.Nil := by
                simp only [createBenchmarkCloseOrder]
                exact Side.opposite_ne_nil _ (hsides t htrade)
              obtain ⟨hcost2, hside2, hpos2⟩ := createBenchmarkOpenOrder_spec
                params settings (inp.bar.startTime - 1) _ _ inp.bar.closePrice
                o2 hsideNil hclose hfee hlev hmin heq2
              constructor
              · simp only [costOf]
                rw [max_eq_right (by linarith)]
                ring
              · refine ⟨by simp [hpos2], ?_⟩
                intro t2 ht2
                injection ht2 with ht2
                subst ht2
                simp only [BTrade.openOrder]
                rw [hside2]
                exact hsideNil
            next heq2 =>
              injection hres with hrow hst
              subst hrow
              subst hst
              refine ⟨by simp [costOf], by simp, ?_⟩
              intro t2 ht2
              exact Option.noConfusion ht2
          · rw [if_neg hrev] at hres
            by_cases hlc : inp.closeLongSig = true ∧
                t.openOrder.side = Side.Buy
            · rw [if_pos hlc, if_pos (by decide :
                (SignalCategory.CloseLong ≠ SignalCategory.RevertPosition))]
                at hres
              injection hres with hrow hst
              subst hrow
              subst hst
              refine ⟨by simp [costOf], by simp, ?_⟩
              intro t2 ht2
              exact Option.noConfusion ht2
            · rw [if_neg hlc] at hres
              by_cases hsc : inp.closeShortSig = true ∧
                  t.openOrder.side = Side.Sell
              · rw [if_pos hsc, if_pos (by decide :
                  (SignalCategory.CloseShort ≠ SignalCategory.RevertPosition))]
                  at hres
                injection hres with hrow hst
                subst hrow
                subst hst
                refine ⟨by simp [costOf], by simp, ?_⟩
                intro t2 ht2
                exact Option.noConfusion ht2
              · rcases hsig with h | h | h | h
                · exact absurd h hlc
                · exact absurd h hsc
                · exact absurd (Or.inl h) hrev
                · exact absurd (Or.inr h) hrev
        next hsig =>
          injection hres with hrow hst
          subst hrow
          subst hst
          refine ⟨by simp [costOf, htrade, hcostT], ?_, ?_⟩
          · constructor
            · intro h0
              exact absurd h0 hpos
            · intro h0
              exact Option.noConfusion h0
          · intro t2 ht2
            injection ht2 with ht2
            subst ht2
            exact hsides t htrade

theorem benchLoop_conservation (settings : TradingSettingsB)
    (params : ContractParams) (hfee : 0 ≤ params.feeRate)
    (hlev : 1 ≤ settings.leverageFactor)
    (hmin : 0 < params.minimumOrderSize) :
    ∀ (steps : List StepInput) (prevRow : BenchRow) (st : BenchState),
      (∀ s ∈ steps, 0 < s.bar.openPrice ∧ 0 < s.bar.closePrice) →
      stateCoherent prevRow st →
      ∃ stF, stateCoherent
          ((benchLoop settings params steps prevRow st).getLastD prevRow)
          stF ∧
        ((benchLoop settings params steps prevRow st).getLastD
              prevRow).balance + costOf stF =
          prevRow.balance + costOf st +
            ((benchLoop settings params steps prevRow st).map
              (fun r => r.pnl)).sum := by
  intro steps
  induction steps with
  | nil =>
    intro prevRow st hbars hcoh
    exact ⟨st, hcoh, by simp [benchLoop]⟩
  | cons inp rest ih =>
    intro prevRow st hbars hcoh
    rcases hstep : benchStep settings params inp prevRow st with ⟨row, st1⟩
    obtain ⟨hbal, hcoh1⟩ := benchStep_conservation settings params inp prevRow
      st row st1 hfee hlev hmin (hbars inp (by simp)).1 (hbars inp (by simp)).2
      hcoh hstep
    obtain ⟨stF, hcohF, hbalF⟩ := ih row st1
      (fun s hs => hbars s (by simp [hs])) hcoh1
    have hunf : benchLoop settings params (inp :: rest) prevRow st =
        row :: benchLoop settings params rest row st1 := by
      simp only [benchLoop, hstep]
    refine ⟨stF, ?_, ?_⟩
    · rw [hunf, List.getLastD_cons]
      exact hcohF
    · rw [hunf, List.getLastD_cons, List.map_cons, List.sum_cons]
      linarith [hbalF]

theorem stepInputs_bar_mem :
    ∀ (bars : List Bar) (a b c d : List Int) (s : StepInput),
      s ∈ stepInputs bars a b c d → s.bar ∈ bars := by
  intro bars
  induction bars with
  | nil =>
    intro a b c d s hs
    simp [stepInputs] at hs
  | cons b0 rest ih =>
    cases rest with
    | nil =>
      intro a b c d s hs
      simp [stepInputs] at hs
    | cons b1 rest2 =>
      intro a b c d s hs
      simp only [stepInputs, List.mem_cons] at hs
      rcases hs with rfl | hs
      · simp
      · exact List.mem_cons_of_mem b0 (ih a.tail b.tail c.tail d.tail s hs)

theorem getLast?_cons_eq_getLastD (x : α) (l : List α) :
    (x :: l).getLast? = some (l.getLastD x) := by
  induction l generalizing x with
  | nil => rfl
  | cons y l2 ih =>
    rw [List.getLast?_cons_cons, ih y, List.getLastD_cons]

theorem getLastD_map (f : α → β) (l : List α) (d : α) :
    (l.map f).getLastD (f d) = f (l.getLastD d) := by
  induction l generalizing d with
  | nil => rfl
  | cons x tl ih =>
    rw [List.map_cons, List.getLastD_cons, List.getLastD_cons]
    exact ih x

/-- The tail rewind is a no-op when the walk already ends flat. -/
theorem tailRewind_flat (cols : BenchColumns)
    (h : cols.positions.getLast? = some 0) : tailRewind cols = cols := by
  unfold tailRewind
  rw [h]
  simp

/-- C10 (amended): for every benchmark run whose walk ends flat on its own
(final position 0, so the tail rewind is a no-op), the total balance change
from the first to the last bar equals the sum of the pnl column alone:
Σ(balance change) = Σ(pnl).  The trade_fees column is *not* subtracted again,
because the pnl written per row is already net of the open and close fees. -/
theorem benchmark_balance_conservation (settings : TradingSettingsB)
    (params : ContractParams) (bars : List Bar)
    (shorts longs closeShorts closeLongs : List Int) (bal0 : ℚ)
    (hfee : 0 ≤ params.feeRate) (hlev : 1 ≤ settings.leverageFactor)
    (hmin : 0 < params.minimumOrderSize)
    (hbars : ∀ b ∈ bars, 0 < b.openPrice ∧ 0 < b.closePrice)
    (hflat : (rowsToColumns (benchRows settings params bars shorts longs
      closeShorts closeLongs bal0)).positions.getLast? = some 0) :
    (computeBenchmarkPositions settings params bars shorts longs closeShorts
        closeLongs bal0).balances.getLastD 0 -
      (computeBenchmarkPositions settings params bars shorts longs closeShorts
        closeLongs bal0).balances.headD 0 =
    (computeBenchmarkPositions settings params bars shorts longs closeShorts
        closeLongs bal0).profit_and_loss.sum := by
  have hsteps : ∀ s ∈ stepInputs bars shorts longs closeShorts closeLongs,
      0 < s.bar.openPrice ∧ 0 < s.bar.closePrice :=
    fun s hs => hbars s.bar
      (stepInputs_bar_mem bars shorts longs closeShorts closeLongs s hs)
  have hcoh0 : stateCoherent (initialBenchRow bal0)
      { trade := none, peak := 0 } := by
    constructor
    · simp [initialBenchRow]
    · intro t ht
      exact Option.noConfusion ht
  obtain ⟨stF, hcohF, hbalF⟩ := benchLoop_conservation settings params hfee
    hlev hmin (stepInputs bars shorts longs closeShorts closeLongs)
    (initialBenchRow bal0) { trade := none, peak := 0 } hsteps hcoh0
  set loopRows := benchLoop settings params
    (stepInputs bars shorts longs closeShorts closeLongs)
    (initialBenchRow bal0) { trade := none, peak := 0 } with hloopdef
  set lastRow := loopRows.getLastD (initialBenchRow bal0) with hlastdef
  have hposlast : (rowsToColumns (benchRows settings params bars shorts longs
      closeShorts closeLongs bal0)).positions.getLast? =
      some lastRow.position := by
    simp only [rowsToColumns, benchRows, ← hloopdef, List.map_cons]
    rw [getLast?_cons_eq_getLastD, getLastD_map, ← hlastdef]
  have hlastpos : lastRow.position = 0 := by
    rw [hposlast] at hflat
    injection hflat
  have hstF : stF.trade = none := hcohF.1.mp hlastpos
  have hcostF : costOf stF = 0 := by simp [costOf, hstF]
  have hrw : computeBenchmarkPositions settings params bars shorts longs
      closeShorts closeLongs bal0 =
      rowsToColumns (benchRows settings params bars shorts longs closeShorts
        closeLongs bal0) := by
    unfold computeBenchmarkPositions
    exact tailRewind_flat _ hflat
  rw [hrw]
  have hballast : (rowsToColumns (benchRows settings params bars shorts longs
      closeShorts closeLongs bal0)).balances.getLastD 0 = lastRow.balance := by
    simp only [rowsToColumns, benchRows, ← hloopdef, List.map_cons]
    rw [List.getLastD_cons, getLastD_map, ← hlastdef]
  have hbalhead : (rowsToColumns (benchRows settings params bars shorts longs
      closeShorts closeLongs bal0)).balances.headD 0 = bal0 := by
    simp [rowsToColumns, benchRows, initialBenchRow]
  have hpnlsum : (rowsToColumns (benchRows settings params bars shorts longs
      closeShorts closeLongs bal0)).profit_and_loss.sum =
      (loopRows.map (fun r => r.pnl)).sum := by
    simp only [rowsToColumns, benchRows, ← hloopdef, List.map_cons,
      List.sum_cons]
    have h0 : (initialBenchRow bal0).pnl = 0 := rfl
    rw [h0, zero_add]
  rw [hballast, hbalhead, hpnlsum]
  rw [hcostF] at hbalF
  have hcost00 : costOf { trade := none, peak := 0 } = (0 : ℚ) := by
    simp [costOf]
  rw [hcost00] at hbalF
  have hb0 : (initialBenchRow bal0).balance = bal0 := rfl
  rw [hb0] at hbalF
  linarith [hbalF]

/-- C10 (amended) witness: the fee-paying round trip of the counterexample
scenario satisfies Σ(balance change) = Σ(pnl). -/
theorem benchmark_balance_conservation_witness :
    (computeBenchmarkPositions scSettingsPlain scParamsFee
        [scFlatBar 60000, scFlatBar 120000, scFlatBar 180000]
        [0, 0, 0] [1, 0, 0] [0, 0, 0] [0, 1, 0] 101).balances.getLastD 0 -
      (computeBenchmarkPositions scSettingsPlain scParamsFee
        [scFlatBar 60000, scFlatBar 120000, scFlatBar 180000]
        [0, 0, 0] [1, 0, 0] [0, 0, 0] [0, 1, 0] 101).balances.headD 0 =
    (computeBenchmarkPositions scSettingsPlain scParamsFee
        [scFlatBar 60000, scFlatBar 120000, scFlatBar 180000]
        [0, 0, 0] [1, 0, 0] [0, 0, 0] [0, 1, 0] 101).profit_and_loss.sum :=
  benchmark_balance_conservation scSettingsPlain scParamsFee
    [scFlatBar 60000, scFlatBar 120000, scFlatBar 180000]
    [0, 0, 0] [1, 0, 0] [0, 0, 0] [0, 1, 0] 101
    (by norm_num [scParamsFee]) (by norm_num [scSettingsPlain])
    (by norm_num [scParamsFee])
    (by intro b hb; fin_cases hb <;> norm_num [scFlatBar])
    (by norm_num [benchRows, benchLoop, benchStep, stepInputs,
      initialBenchRow, rowsToColumns, benchOpenAttempt,
      createBenchmarkOpenOrder, openPositionMod, createBenchmarkCloseOrder,
      checkPriceLevelModifiers, calcPnlAndReturns,
      BTrade.calculate_pnl_and_returns,
      BTrade.calculate_current_pnl_and_returns, BTrade.get_executed_fees,
      BOrder.get_order_cost, bankruptcyPrice, modifiersEnabled, stopActionFor,
      Side.opposite, Side.toPosition, scSettingsPlain, scParamsFee, scFlatBar,
      (show SignalCategory.CloseLong ≠ SignalCategory.RevertPosition from
        fun h => SignalCategory.noConfusion h)])

/-! ## Indicator/Signal pipeline: `update` vs `fit`
(`update_strategy_data` in `strategy.rs`, `update_signal_column` in
`simple_follow_trend_signals.rs`)

A decorated frame is viewed as a map from column name to column.  Each unit
computes its whole output column from the current frame
(`set_signal_column`); the fit path left-joins the fresh column back on
`start_time`, the update path recomputes it on the full vstacked frame and
replaces the column in place — both are `setColumn` in this view, so the two
paths differ only in their start tables: fit starts from the raw tick frame,
update from the stale decorated frame.  The indicator units' update bodies
are not under `src/`; they are modelled from the spec's stage contract
(§4.3) like the signal units that are. -/

/-- A decorated table: column name → column of values. -/
def PipeTable := String → List ℚ

/-- Set (or overwrite) one column — the common effect of
`left_join(.., "start_time", "start_time")` with a freshly computed column
and of polars `replace`. -/
def setColumn (T : PipeTable) (n : String) (v : List ℚ) : PipeTable :=
  fun m => if m = n then v else T m

/-- A pipeline unit (pre-indicator, indicator or signal): its output column
name and its compute function over the whole current frame. -/
structure PipeUnit where
  name : String
  compute : PipeTable → List ℚ

/-- The fit path (`set_strategy_data`): fold the units in pipeline order,
joining each freshly computed column onto the accumulated frame. -/
def fitPipeline (units : List PipeUnit) (T : PipeTable) : PipeTable :=
  units.foldl (fun acc u => setColumn acc u.name (u.compute acc)) T

/-- The update path (`update_strategy_data` after `vstack`): fold the units
in the same order, recomputing each column on the full frame and replacing
it (`update_signal_column`). -/
def updatePipeline (units : List PipeUnit) (T : PipeTable) : PipeTable :=
  units.foldl (fun acc u => setColumn acc u.name (u.compute acc)) T

/-- The output column names of a pipeline. -/
def unitNames (units : List PipeUnit) : List String :=
  units.map (fun u => u.name)

/-- The stage-ordering contract of §4.3: every unit reads only the base
columns and the outputs of units strictly before it, i.e. its compute is
invariant under changes to its own and to later units' columns. -/
def computesLayered : List PipeUnit → Prop
  | [] => True
  | u :: rest =>
    (∀ T1 T2 : PipeTable,
        (∀ m, m ∉ unitNames (u :: rest) → T1 m = T2 m) →
        u.compute T1 = u.compute T2) ∧
      computesLayered rest

theorem pipeline_agree :
    ∀ (units : List PipeUnit) (Traw Tstale : PipeTable),
      computesLayered units →
      (∀ m, m ∉ unitNames units → Tstale m = Traw m) →
      ∀ m, updatePipeline units Tstale m = fitPipeline units Traw m := by
  intro units
  induction units with
  | nil =>
    intro Traw Tstale hdep hagree m
    exact hagree m (by simp [unitNames])
  | cons u rest ih =>
    intro Traw Tstale hdep hagree m
    obtain ⟨hu, hrest⟩ := hdep
    have hcomp : u.compute Tstale = u.compute Traw :=
      hu Tstale Traw (fun n hn => hagree n hn)
    have hstep1 : updatePipeline (u :: rest) Tstale =
        updatePipeline rest (setColumn Tstale u.name (u.compute Tstale)) :=
      rfl
    have hstep2 : fitPipeline (u :: rest) Traw =
        fitPipeline rest (setColumn Traw u.name (u.compute Traw)) := rfl
    rw [hstep1, hstep2]
    refine ih (setColumn Traw u.name (u.compute Traw))
      (setColumn Tstale u.name (u.compute Tstale)) hrest ?_ m
    intro n hn
    by_cases hnu : n = u.name
    · subst hnu
      simp [setColumn, hcomp]
    · have hnot : n ∉ unitNames (u :: rest) := by
        simp only [unitNames, List.map_cons, List.mem_cons]
        push_neg
        exact ⟨hnu, by simpa [unitNames] using hn⟩
      simp [setColumn, hnu, hagree n hnot]

/-- C5: for every starting frame and pipeline of pre-indicator, indicator and
signal units satisfying the stage-ordering contract, the incremental update
path applied to the stale decorated frame (the previous table with the new
row vstacked, stale derived columns included) produces columns identical —
in particular on the last row — to a full fit on the raw extended frame:
every stale value is recomputed and overwritten. -/
theorem pipeline_update_matches_fit (units : List PipeUnit)
    (Traw Tstale : PipeTable) (hdep : computesLayered units)
    (hagree : ∀ m, m ∉ unitNames units → Tstale m = Traw m) :
    (∀ m, updatePipeline units Tstale m = fitPipeline units Traw m) ∧
      (∀ m, (updatePipeline units Tstale m).getLast? =
        (fitPipeline units Traw m).getLast?) := by
  have key := pipeline_agree units Traw Tstale hdep hagree
  exact ⟨key, fun m => by rw [key m]⟩

/-- A two-unit concrete pipeline: an "ema" indicator reading the base
"close" column and a "go_long" signal reading "ema". -/
def scPipeUnits : List PipeUnit :=
  [{ name := "ema", compute := fun T => (T "close").map (fun x => x * 2) },
   { name := "go_long"
     compute := fun T =>
       (T "ema").map (fun x => if x > 0 then 1 else 0) }]

/-- The raw extended frame: just the base "close" column. -/
def scTraw : PipeTable :=
  fun m => if m = "close" then [1, -2, 3] else []

/-- The stale decorated frame: same base, stale derived columns. -/
def scTstale : PipeTable :=
  fun m =>
    if m = "close" then [1, -2, 3]
    else if m = "ema" then [9, 9, 9]
    else if m = "go_long" then [7] else []

/-- C5 witness: on the concrete pipeline the update of the stale frame and
the fit of the raw frame agree on the "go_long" column and its last row. -/
theorem pipeline_update_matches_fit_witness :
    updatePipeline scPipeUnits scTstale "go_long" =
        fitPipeline scPipeUnits scTraw "go_long" ∧
      (updatePipeline scPipeUnits scTstale "go_long").getLast? =
        (fitPipeline scPipeUnits scTraw "go_long").getLast? := by
  have h := pipeline_update_matches_fit scPipeUnits scTraw scTstale
    (by
      refine ⟨?_, ?_, trivial⟩
      · intro T1 T2 hagree
        simp only [scPipeUnits]
        rw [hagree "close" (by simp [unitNames, scPipeUnits])]
      · intro T1 T2 hagree
        simp only [scPipeUnits]
        rw [hagree "ema" ?_]
        simp [unitNames, scPipeUnits])
    (by
      intro m hm
      simp only [unitNames, scPipeUnits, List.map_cons, List.mem_cons] at hm
      push_neg at hm
      simp only [scTstale, scTraw]
      by_cases hc : m = "close"
      · simp [hc]
      · simp [hc, hm.1, hm.2.1])
  exact ⟨h.1 "go_long", h.2 "go_long"⟩

end Klapaucius
